import Mathlib

/-!
Verification of the TLS trust-anchor subsystem (libs/tls): the key-derivation
scheme of `OwnedTrustAnchor::pddb_key` (ota.rs), the store operations
`save_cert` / `get_cert` (lib.rs), and the trust-establishment workflow
`check_trust` (lib.rs).

Byte strings (Rust `Vec<u8>`, `&str` contents, `String` contents) are
modelled as `List Nat` with each element a byte value.  Rust panics
(out-of-bounds indexing, `expect` on `Err`, string slicing off a char
boundary) are modelled as explicit error / panic constructors, so every
function is total and executable.
-/

/-- Byte strings: each element is a byte value (0–255). -/
abbrev Bytes := List Nat

/-- The record persisted for a trust anchor (ota.rs `OwnedTrustAnchor`,
with the same three fields as the `RustlsOwnedTrustAnchor` of lib.rs per the
TrustAnchorRecord of the spec): raw subject bytes, raw SPKI bytes, optional raw
name-constraint bytes. -/
structure OwnedTrustAnchor where
  subject : Bytes
  spki : Bytes
  name_constraints : Option Bytes
deriving DecidableEq, Inhabited, Repr

/-- Is `b` a UTF-8 continuation byte (`0x80 ≤ b < 0xC0`)?  Also exactly the
bytes at which the Rust `str::is_char_boundary` is false. -/
def contByte (b : Nat) : Bool := 128 ≤ b && b < 192

/-- UTF-8 validity of a byte sequence, as checked by the Rust
`std::str::from_utf8` (rejecting overlong forms, surrogates and
code points above U+10FFFF). -/
def utf8Valid : Bytes → Bool
  | [] => true
  | b :: rest =>
    if b < 128 then utf8Valid rest
    else if b < 194 then false
    else if b < 224 then
      match rest with
      | b1 :: r => contByte b1 && utf8Valid r
      | [] => false
    else if b = 224 then
      match rest with
      | b1 :: b2 :: r => (160 ≤ b1 && b1 < 192) && contByte b2 && utf8Valid r
      | _ => false
    else if b < 237 then
      match rest with
      | b1 :: b2 :: r => contByte b1 && contByte b2 && utf8Valid r
      | _ => false
    else if b = 237 then
      match rest with
      | b1 :: b2 :: r => (128 ≤ b1 && b1 < 160) && contByte b2 && utf8Valid r
      | _ => false
    else if b < 240 then
      match rest with
      | b1 :: b2 :: r => contByte b1 && contByte b2 && utf8Valid r
      | _ => false
    else if b = 240 then
      match rest with
      | b1 :: b2 :: b3 :: r =>
        (144 ≤ b1 && b1 < 192) && contByte b2 && contByte b3 && utf8Valid r
      | _ => false
    else if b < 244 then
      match rest with
      | b1 :: b2 :: b3 :: r => contByte b1 && contByte b2 && contByte b3 && utf8Valid r
      | _ => false
    else if b = 244 then
      match rest with
      | b1 :: b2 :: b3 :: r =>
        (128 ≤ b1 && b1 < 144) && contByte b2 && contByte b3 && utf8Valid r
      | _ => false
    else false

/-- Does `l` start with `pat`? (byte-level, mirrors Rust pattern matching at a
fixed position). -/
def hasPrefixB : Bytes → Bytes → Bool
  | [], _ => true
  | _ :: _, [] => false
  | p :: ps, x :: xs => (p == x) && hasPrefixB ps xs

/-- Byte index of the first occurrence of `pat`, mirroring the Rust
`str::find` (which returns a byte offset). -/
def findSub (pat : Bytes) : Bytes → Option Nat
  | [] => if pat.isEmpty then some 0 else none
  | x :: xs => if hasPrefixB pat (x :: xs) then some 0 else (findSub pat xs).map (· + 1)

/-- The bytes of the marker `CN=`. -/
def cnPat : Bytes := [67, 78, 61]

/-- The bytes of the marker `OU=`. -/
def ouPat : Bytes := [79, 85, 61]

/-- The slice `subject[b..end]` where `end` is the position of the next comma
(byte 44) at or after `b`, or the end of the string (ota.rs lines 46–50). -/
def labelFrom (subject : Bytes) (b : Nat) : Bytes :=
  match findSub [44] (subject.drop b) with
  | some e => (subject.drop b).take e
  | none => subject.drop b

/-- The human-legible label extracted from the subject string: text after
`CN=` (falling back to `OU=`) up to the next comma; the whole string when
neither marker occurs (ota.rs lines 38–57). -/
def extractLabel (subject : Bytes) : Bytes :=
  match findSub cnPat subject with
  | some i => labelFrom subject (i + 3)
  | none =>
    match findSub ouPat subject with
    | some i => labelFrom subject (i + 3)
    | none => subject

/-- The subject string `pddb_key` works on: the raw subject bytes when they
are valid UTF-8, the empty string otherwise (ota.rs lines 31–37: the
`Err` arm yields `""`). -/
def keyLabel (subject : Bytes) : Bytes :=
  extractLabel (if utf8Valid subject then subject else [])

/-- ASCII code of the uppercase hex digit for `n < 16`. -/
def hexDigit (n : Nat) : Nat := if n < 10 then 48 + n else 55 + n

/-- The Rust `format!("{:X}", b)` for a byte: uppercase hex without leading
zeros — one digit for `b < 16`, two digits otherwise. -/
def hexByte (b : Nat) : Bytes :=
  if b < 16 then [hexDigit b] else [hexDigit (b / 16), hexDigit (b % 16)]

/-- The disambiguation suffix: a space then `format!("{:X}{:X}{:X}{:X}",
k[6], k[7], k[8], k[9])` (ota.rs lines 59–61). -/
def hexSuffix (spki : Bytes) : Bytes :=
  32 :: (hexByte (spki.getD 6 0) ++ hexByte (spki.getD 7 0) ++
    hexByte (spki.getD 8 0) ++ hexByte (spki.getD 9 0))

/-- The two ways `pddb_key` can panic: indexing `spki` out of bounds at
offsets 6–9, and slicing the final string off a UTF-8 char boundary. -/
inductive KeyPanic where
  | oob
  | boundary
deriving DecidableEq, Repr

instance {ε α : Type} [DecidableEq ε] [DecidableEq α] : DecidableEq (Except ε α)
  | .error e, .error f =>
    if h : e = f then isTrue (by rw [h]) else isFalse (by intro hh; cases hh; exact h rfl)
  | .error _, .ok _ => isFalse (by intro h; cases h)
  | .ok _, .error _ => isFalse (by intro h; cases h)
  | .ok x, .ok y =>
    if h : x = y then isTrue (by rw [h]) else isFalse (by intro hh; cases hh; exact h rfl)

/-- `OwnedTrustAnchor::pddb_key` (ota.rs lines 30–68).  The label is
extracted from the subject (empty string when not valid UTF-8), the
space-and-hex suffix from `spki[6..=9]` is appended, and the result is
truncated to `KEY_NAME_LEN - 1 = 94` bytes.  `spki` shorter than 10 bytes
panics on indexing; truncation landing inside a multi-byte character
panics on slicing. -/
def OwnedTrustAnchor.pddb_key (r : OwnedTrustAnchor) : Except KeyPanic Bytes :=
  if r.spki.length < 10 then .error .oob
  else if (keyLabel r.subject ++ hexSuffix r.spki).length ≤ 94 then
    .ok (keyLabel r.subject ++ hexSuffix r.spki)
  else if contByte ((keyLabel r.subject ++ hexSuffix r.spki).getD 94 0) then
    .error .boundary
  else .ok ((keyLabel r.subject ++ hexSuffix r.spki).take 94)

/-- Little-endian 4-byte encoding of a length field. -/
def enc32 (n : Nat) : Bytes :=
  [n % 256, n / 256 % 256, n / 65536 % 256, n / 16777216 % 256]

/-- Little-endian 4-byte decoding, reading the first four bytes (0 when
absent). -/
def dec32 (l : Bytes) : Nat :=
  l.getD 0 0 + 256 * l.getD 1 0 + 65536 * l.getD 2 0 + 16777216 * l.getD 3 0

/-- Modelled from the spec: the rkyv archive of an `OwnedTrustAnchor`
(the rkyv serializer is an external crate, not under src).  Per spec §4.2
the root value is written at a computed offset after its out-of-line data:
the payload is the three byte vectors in field order, and the root, at
offset `payload.length`, is a fixed 13-byte struct holding the subject
length, the spki length, and a tagged name-constraints length. -/
def payloadBytes (r : OwnedTrustAnchor) : Bytes :=
  r.subject ++ r.spki ++ (r.name_constraints.getD [])

/-- Modelled from the spec: the root struct of the archive (see
`payloadBytes`). -/
def rootBytes (r : OwnedTrustAnchor) : Bytes :=
  enc32 r.subject.length ++ enc32 r.spki.length ++
    (match r.name_constraints with
     | none => 0 :: enc32 0
     | some nc => 1 :: enc32 nc.length)

/-- Modelled from the spec: `serializer.serialize_value(ta)` — the full
archive buffer together with the byte position at which the root value
begins (lib.rs lines 148–149 capture this position as `pos`). -/
def serialize_value (r : OwnedTrustAnchor) : Bytes × Nat :=
  (payloadBytes r ++ rootBytes r, (payloadBytes r).length)

/-- Modelled from the spec: `rkyv::archived_value` followed by
`deserialize` — reconstruct the record from `bytes` given the root
position `pos`; any structurally impossible layout is a decode failure
(`none`). -/
def deserializeAt (bytes : Bytes) (pos : Nat) : Option OwnedTrustAnchor :=
  if bytes.length < pos + 13 then none
  else if dec32 (bytes.drop pos) + dec32 ((bytes.drop pos).drop 4) +
      (if (bytes.drop pos).getD 8 0 = 1 then dec32 ((bytes.drop pos).drop 9) else 0) ≤ pos then
    if (bytes.drop pos).getD 8 0 = 0 then
      some ⟨bytes.take (dec32 (bytes.drop pos)),
        (bytes.drop (dec32 (bytes.drop pos))).take (dec32 ((bytes.drop pos).drop 4)), none⟩
    else if (bytes.drop pos).getD 8 0 = 1 then
      some ⟨bytes.take (dec32 (bytes.drop pos)),
        (bytes.drop (dec32 (bytes.drop pos))).take (dec32 ((bytes.drop pos).drop 4)),
        some ((bytes.drop (dec32 (bytes.drop pos) + dec32 ((bytes.drop pos).drop 4))).take
          (dec32 ((bytes.drop pos).drop 9)))⟩
    else none
  else none

/-- The two trailing bytes `pos.to_be_bytes()` appended to the archive
(lib.rs lines 153–155). -/
def enc16be (pos : Nat) : Bytes := [pos / 256, pos % 256]

/-- The PDDB as seen through `std::fs`: whether the `tls.trusted`
dictionary exists, and its entries (key bytes ↦ content bytes). -/
structure Pddb where
  dictExists : Bool
  entries : List (Bytes × Bytes)
deriving DecidableEq, Inhabited, Repr

/-- Association-list lookup on the dictionary entries (opening the file
named `key`). -/
def lookupKey (key : Bytes) : List (Bytes × Bytes) → Option Bytes
  | [] => none
  | (k, v) :: rest => if k = key then some v else lookupKey key rest

/-- `File::create` + `write_all`: replace any prior contents under `key`. -/
def insertEntry (key v : Bytes) (es : List (Bytes × Bytes)) : List (Bytes × Bytes) :=
  (key, v) :: es.filter (fun e => decide (e.1 ≠ key))

/-- The Rust `key.starts_with("__")` on the UTF-8 bytes of the key (0x5F = 95). -/
def reservedKey : Bytes → Bool
  | a :: b :: _ => a == 95 && b == 95
  | _ => false

/-- How a call to `save_cert` ends: `Ok(())`, the reserved-key `Err`
(lib.rs lines 132–136), or the `expect("data > u16")` panic
(lib.rs line 149). -/
inductive SaveOutcome where
  | ok
  | errReserved
  | panicSize
deriving DecidableEq, Repr

/-- `save_cert` (lib.rs lines 131–161): reject `__`-prefixed keys before
any I/O; otherwise create the dictionary if absent, serialize the anchor,
panic if the root position overflows `u16`, and else write
`archive ++ pos.to_be_bytes()` as the full contents of the entry. -/
def save_cert (key : Bytes) (ta : OwnedTrustAnchor) (st : Pddb) : SaveOutcome × Pddb :=
  if reservedKey key then (.errReserved, st)
  else
    let st1 : Pddb := { st with dictExists := true }
    if 65536 ≤ (serialize_value ta).2 then (.panicSize, st1)
    else
      (.ok, { st1 with
        entries := insertEntry key ((serialize_value ta).1 ++ enc16be (serialize_value ta).2)
          st1.entries })

/-- How a call to `get_cert` ends: `Ok(Option<record>)`, or the panic on
`bytes[len - 2]` when the stored contents are shorter than two bytes
(lib.rs line 179). -/
inductive GetOutcome where
  | ok (ta : Option OwnedTrustAnchor)
  | panicIdx
deriving DecidableEq, Repr

/-- `get_cert` (lib.rs lines 164–190): create the dictionary if absent
(a read has this side effect), return `Ok(None)` for a missing entry,
panic on contents shorter than two bytes, otherwise take the last two
bytes as the big-endian root position and decode; a decode failure
becomes `Ok(None)`. -/
def get_cert (key : Bytes) (st : Pddb) : GetOutcome × Pddb :=
  let st1 : Pddb := { st with dictExists := true }
  match lookupKey key st.entries with
  | none => (.ok none, st1)
  | some bytes =>
    if bytes.length < 2 then (.panicIdx, st1)
    else
      (.ok (deserializeAt bytes
        (256 * bytes.getD (bytes.length - 2) 0 + bytes.getD (bytes.length - 1) 0)), st1)

/-- Modelled from the spec: the external certificate parsing collaborator
(§6) returns a structured certificate exposing a CA flag, a human-decoded
subject string, a hexadecimal serial string (`raw_serial_as_string`), raw
subject bytes and raw SPKI bytes.  `check_trust` is parameterized over the
parse function. -/
structure Cert where
  is_ca : Bool
  subject_disp : Bytes
  serial : Bytes
  raw_subject : Bytes
  raw_spki : Bytes
deriving DecidableEq, Inhabited, Repr

/-- The marker bytes of the string rendered before a CA subject
(lib.rs line 47). -/
def caMarker : Bytes := [240, 159, 143, 155, 32]

/-- One display line of the checklist (lib.rs lines 43–52): marker,
decoded subject, newline, serial bytes 0–23, newline, serial bytes 24…
(Rust slices the serial string, which panics when it is shorter than 24
bytes — `check_trust` guards for that separately). -/
def render (c : Cert) : Bytes :=
  (if c.is_ca then caMarker else []) ++ c.subject_disp ++ [10] ++
    c.serial.take 24 ++ [10] ++ c.serial.drop 24

/-- The candidate filter of `check_trust` (lib.rs lines 33–39): parse each
DER byte string, drop the failures, keep only certificates whose CA flag
is set. -/
def caCerts (parse : Bytes → Option Cert) (batch : List Bytes) : List Cert :=
  (batch.filterMap parse).filter (fun c => c.is_ca)

/-- The checklist presented to the user via `modals.add_list`
(lib.rs lines 41–57). -/
def checklistOf (parse : Bytes → Option Cert) (batch : List Bytes) : List Bytes :=
  (caCerts parse batch).map render

/-- `RustlsOwnedTrustAnchor::from(x509)` (lib.rs line 71, ota.rs
lines 98–106): raw subject, raw SPKI, no name constraints. -/
def otaOfCert (c : Cert) : OwnedTrustAnchor :=
  ⟨c.raw_subject, c.raw_spki, none⟩

/-- Modelled from the spec: the UI collaborator (§6) — the result of
`get_checkbox` (`none` models its `Err`) and the indices returned by
`get_check_index`. -/
structure UiOracle where
  checkbox : Option (List Bytes)
  check_index : List Nat

/-- The key/anchor pairs saved for the selected indices
(lib.rs lines 63–73): the key is the serial of the certificate rendered as text. -/
def selectedPairs (parse : Bytes → Option Cert) (batch : List Bytes) (idx : List Nat) :
    List (Bytes × OwnedTrustAnchor) :=
  idx.map (fun i =>
    (((caCerts parse batch).getD i default).serial, otaOfCert ((caCerts parse batch).getD i default)))

/-- Modelled from the spec: the one-off notification text shown when an
anchor fails to save embeds the decoded subject of the anchor (the DER decoder
is external); modelled as the raw subject bytes. -/
def notifMsg (ta : OwnedTrustAnchor) : Bytes := ta.subject

/-- The per-anchor save loop (lib.rs lines 74–84): a save `Err` is caught
by `unwrap_or_else` — a notification is shown and the loop continues with
the store unchanged; the size-limit panic inside `save_cert` aborts the
whole workflow (`none`). -/
def saveLoop : List (Bytes × OwnedTrustAnchor) → Pddb → Option (Pddb × List Bytes)
  | [], st => some (st, [])
  | (k, ta) :: rest, st =>
    match save_cert k ta st with
    | (.ok, st') => saveLoop rest st'
    | (.errReserved, st') => (saveLoop rest st').map (fun r => (r.1, notifMsg ta :: r.2))
    | (.panicSize, _) => none

/-- How a run of `check_trust` ends: a panic (serial shorter than 24
bytes while rendering, an out-of-range checkbox index, or the save-path
size panic), or completion with the checklist that was presented, the
failure notifications shown, and the returned count. -/
inductive TrustOutcome where
  | panic
  | done (presented : List Bytes) (notified : List Bytes) (count : Nat)
deriving DecidableEq, Repr

/-- `check_trust` (lib.rs lines 29–92): filter to parsable CA
certificates, render and present the checklist, and on a successful
checkbox interaction save an anchor per selected index and return the
number of selected labels; a failed interaction returns 0. -/
def check_trust (parse : Bytes → Option Cert) (ui : UiOracle) (batch : List Bytes)
    (st : Pddb) : TrustOutcome × Pddb :=
  if (caCerts parse batch).all (fun c => 24 ≤ c.serial.length) then
    match ui.checkbox with
    | none => (.done (checklistOf parse batch) [] 0, st)
    | some trusted =>
      if ui.check_index.all (fun i => i < (caCerts parse batch).length) then
        match saveLoop (selectedPairs parse batch ui.check_index) st with
        | some (st', fails) => (.done (checklistOf parse batch) fails trusted.length, st')
        | none => (.panic, st)
      else (.panic, st)
  else (.panic, st)

/-- The checklist a `check_trust` run actually presented (empty when it
panicked before presenting). -/
def presentedOf : TrustOutcome → List Bytes
  | .done p _ _ => p
  | .panic => []

/-- The count a `check_trust` run returned (`none` when it panicked). -/
def countOf : TrustOutcome → Option Nat
  | .done _ _ c => some c
  | .panic => none

/-- A demo CA certificate used to exercise the workflow on concrete
inputs. -/
def demoCa : Cert := ⟨true, [97], List.replicate 24 48, [1], [2]⟩

/-- A demo non-CA (leaf) certificate. -/
def demoLeaf : Cert := ⟨false, [98], List.replicate 24 48, [3], [4]⟩

/-- A demo CA certificate whose serial starts with `__`, so that saving
it under the serial-derived key fails with the reserved-key error. -/
def demoCaReserved : Cert := ⟨true, [99], [95, 95] ++ List.replicate 22 48, [5], [6]⟩

/-- A demo parse collaborator: `[0]` parses as a CA, `[1]` as a leaf,
anything else fails to parse. -/
def demoParse (der : Bytes) : Option Cert :=
  if der = [0] then some demoCa else if der = [1] then some demoLeaf else none

/-- A demo parse collaborator for the save-failure scenario: `[0]` parses
as the reserved-serial CA, `[1]` as a normal CA. -/
def demoParse2 (der : Bytes) : Option Cert :=
  if der = [0] then some demoCaReserved else if der = [1] then some demoCa else none

/-- The key-derivation as claim C6 reads the spec: identical to
`OwnedTrustAnchor.pddb_key` except that a subject that is not valid UTF-8
falls back to the raw (possibly non-text) byte sequence as the label. -/
def rawFallbackLabel (subject : Bytes) : Bytes :=
  if utf8Valid subject then extractLabel subject else subject

/-- The key-derivation function claim C6 describes (see
`rawFallbackLabel`); compared against `pddb_key` as the code defines it. -/
def pddb_keyRawFallback (r : OwnedTrustAnchor) : Except KeyPanic Bytes :=
  if r.spki.length < 10 then .error .oob
  else if (rawFallbackLabel r.subject ++ hexSuffix r.spki).length ≤ 94 then
    .ok (rawFallbackLabel r.subject ++ hexSuffix r.spki)
  else if contByte ((rawFallbackLabel r.subject ++ hexSuffix r.spki).getD 94 0) then
    .error .boundary
  else .ok ((rawFallbackLabel r.subject ++ hexSuffix r.spki).take 94)


/-! ## Helper lemmas -/

theorem hexByte_length_le (b : Nat) : (hexByte b).length ≤ 2 := by
  unfold hexByte; split <;> simp

theorem hexSuffix_length_le (spki : Bytes) : (hexSuffix spki).length ≤ 9 := by
  have h6 := hexByte_length_le (spki.getD 6 0)
  have h7 := hexByte_length_le (spki.getD 7 0)
  have h8 := hexByte_length_le (spki.getD 8 0)
  have h9 := hexByte_length_le (spki.getD 9 0)
  simp only [hexSuffix, List.length_cons, List.length_append]
  omega

theorem dec32_enc32 (n : Nat) (rest : Bytes) (h : n < 4294967296) :
    dec32 (enc32 n ++ rest) = n := by
  show n % 256 + 256 * (n / 256 % 256) + 65536 * (n / 65536 % 256) +
    16777216 * (n / 16777216 % 256) = n
  omega

theorem drop4_enc32 (n : Nat) (rest : Bytes) : (enc32 n ++ rest).drop 4 = rest := rfl

theorem getD8_root (a b t : Nat) (r1 : Bytes) :
    (enc32 a ++ (enc32 b ++ t :: r1)).getD 8 0 = t := rfl

theorem drop9_root (a b t : Nat) (r1 : Bytes) :
    (enc32 a ++ (enc32 b ++ t :: r1)).drop 9 = r1 := rfl

theorem deser_layout_none (s k extra : Bytes) (h : s.length + k.length < 4294967296) :
    deserializeAt ((s ++ k) ++ (enc32 s.length ++ enc32 k.length ++ 0 :: enc32 0) ++ extra)
      (s ++ k).length = some ⟨s, k, none⟩ := by
  have hs : s.length < 4294967296 := by omega
  have hk : k.length < 4294967296 := by omega
  have hre : (s ++ k) ++ (enc32 s.length ++ enc32 k.length ++ 0 :: enc32 0) ++ extra
      = (s ++ k) ++ (enc32 s.length ++ (enc32 k.length ++ 0 :: (enc32 0 ++ extra))) := by
    simp [List.append_assoc]
  rw [hre]
  have hdrop : ((s ++ k) ++ (enc32 s.length ++ (enc32 k.length ++ 0 :: (enc32 0 ++ extra)))).drop
      (s ++ k).length = enc32 s.length ++ (enc32 k.length ++ 0 :: (enc32 0 ++ extra)) :=
    List.drop_left _ _
  have e1 : dec32 (enc32 s.length ++ (enc32 k.length ++ 0 :: (enc32 0 ++ extra))) = s.length :=
    dec32_enc32 _ _ hs
  have e2 : dec32 ((enc32 s.length ++ (enc32 k.length ++ 0 :: (enc32 0 ++ extra))).drop 4)
      = k.length := by
    rw [drop4_enc32]
    exact dec32_enc32 _ _ hk
  have e3 : (enc32 s.length ++ (enc32 k.length ++ 0 :: (enc32 0 ++ extra))).getD 8 0 = 0 :=
    getD8_root _ _ _ _
  have htk1 : ((s ++ k) ++ (enc32 s.length ++ (enc32 k.length ++ 0 :: (enc32 0 ++ extra)))).take
      s.length = s := by
    have hb2 : (s ++ k) ++ (enc32 s.length ++ (enc32 k.length ++ 0 :: (enc32 0 ++ extra)))
        = s ++ (k ++ (enc32 s.length ++ (enc32 k.length ++ 0 :: (enc32 0 ++ extra)))) := by
      simp [List.append_assoc]
    rw [hb2, List.take_left]
  have htk2 : (((s ++ k) ++ (enc32 s.length ++ (enc32 k.length ++ 0 :: (enc32 0 ++ extra)))).drop
      s.length).take k.length = k := by
    have hb2 : (s ++ k) ++ (enc32 s.length ++ (enc32 k.length ++ 0 :: (enc32 0 ++ extra)))
        = s ++ (k ++ (enc32 s.length ++ (enc32 k.length ++ 0 :: (enc32 0 ++ extra)))) := by
      simp [List.append_assoc]
    rw [hb2, List.drop_left, List.take_left]
  have c1 : ¬ (((s ++ k) ++ (enc32 s.length ++ (enc32 k.length ++ 0 :: (enc32 0 ++ extra)))).length
      < (s ++ k).length + 13) := by
    simp only [List.length_append, List.length_cons, List.length_nil, enc32]
    omega
  simp only [deserializeAt, hdrop, e1, e2, e3]
  rw [if_neg c1]
  simp [htk1, htk2, List.length_append, Nat.add_assoc]

theorem deser_layout_some (s k ncb extra : Bytes)
    (h : s.length + k.length + ncb.length < 4294967296) :
    deserializeAt
      ((s ++ k ++ ncb) ++ (enc32 s.length ++ enc32 k.length ++ 1 :: enc32 ncb.length) ++ extra)
      (s ++ k ++ ncb).length = some ⟨s, k, some ncb⟩ := by
  have hs : s.length < 4294967296 := by omega
  have hk : k.length < 4294967296 := by omega
  have hn : ncb.length < 4294967296 := by omega
  have hre : (s ++ k ++ ncb) ++ (enc32 s.length ++ enc32 k.length ++ 1 :: enc32 ncb.length) ++ extra
      = (s ++ k ++ ncb) ++ (enc32 s.length ++ (enc32 k.length ++ 1 :: (enc32 ncb.length ++ extra))) := by
    simp [List.append_assoc]
  rw [hre]
  have hdrop : ((s ++ k ++ ncb) ++
      (enc32 s.length ++ (enc32 k.length ++ 1 :: (enc32 ncb.length ++ extra)))).drop
      (s ++ k ++ ncb).length
      = enc32 s.length ++ (enc32 k.length ++ 1 :: (enc32 ncb.length ++ extra)) :=
    List.drop_left _ _
  have e1 : dec32 (enc32 s.length ++ (enc32 k.length ++ 1 :: (enc32 ncb.length ++ extra)))
      = s.length :=
    dec32_enc32 _ _ hs
  have e2 : dec32 ((enc32 s.length ++ (enc32 k.length ++ 1 :: (enc32 ncb.length ++ extra))).drop 4)
      = k.length := by
    rw [drop4_enc32]
    exact dec32_enc32 _ _ hk
  have e3 : (enc32 s.length ++ (enc32 k.length ++ 1 :: (enc32 ncb.length ++ extra))).getD 8 0
      = 1 :=
    getD8_root _ _ _ _
  have e4 : dec32 ((enc32 s.length ++ (enc32 k.length ++ 1 :: (enc32 ncb.length ++ extra))).drop 9)
      = ncb.length := by
    rw [drop9_root]
    exact dec32_enc32 _ _ hn
  have htk1 : ((s ++ k ++ ncb) ++
      (enc32 s.length ++ (enc32 k.length ++ 1 :: (enc32 ncb.length ++ extra)))).take s.length
      = s := by
    have hb2 : (s ++ k ++ ncb) ++
        (enc32 s.length ++ (enc32 k.length ++ 1 :: (enc32 ncb.length ++ extra)))
        = s ++ (k ++ (ncb ++
          (enc32 s.length ++ (enc32 k.length ++ 1 :: (enc32 ncb.length ++ extra))))) := by
      simp [List.append_assoc]
    rw [hb2, List.take_left]
  have htk2 : (((s ++ k ++ ncb) ++
      (enc32 s.length ++ (enc32 k.length ++ 1 :: (enc32 ncb.length ++ extra)))).drop
      s.length).take k.length = k := by
    have hb2 : (s ++ k ++ ncb) ++
        (enc32 s.length ++ (enc32 k.length ++ 1 :: (enc32 ncb.length ++ extra)))
        = s ++ (k ++ (ncb ++
          (enc32 s.length ++ (enc32 k.length ++ 1 :: (enc32 ncb.length ++ extra))))) := by
      simp [List.append_assoc]
    rw [hb2, List.drop_left, List.take_left]
  have htk3 : (((s ++ k ++ ncb) ++
      (enc32 s.length ++ (enc32 k.length ++ 1 :: (enc32 ncb.length ++ extra)))).drop
      (s.length + k.length)).take ncb.length = ncb := by
    have hb2 : (s ++ k ++ ncb) ++
        (enc32 s.length ++ (enc32 k.length ++ 1 :: (enc32 ncb.length ++ extra)))
        = (s ++ k) ++ (ncb ++
          (enc32 s.length ++ (enc32 k.length ++ 1 :: (enc32 ncb.length ++ extra)))) := by
      simp [List.append_assoc]
    have hsk : (s ++ k).length = s.length + k.length := by simp [List.length_append]
    rw [hb2, ← hsk, List.drop_left, List.take_left]
  have c1 : ¬ (((s ++ k ++ ncb) ++
      (enc32 s.length ++ (enc32 k.length ++ 1 :: (enc32 ncb.length ++ extra)))).length
      < (s ++ k ++ ncb).length + 13) := by
    simp only [List.length_append, List.length_cons, List.length_nil, enc32]
    omega
  simp only [deserializeAt, hdrop, e1, e2, e3, e4]
  rw [if_neg c1]
  simp [htk1, htk2, htk3, List.length_append, Nat.add_assoc]

theorem deserializeAt_serialize (ta : OwnedTrustAnchor) (extra : Bytes)
    (hbound : (payloadBytes ta).length < 4294967296) :
    deserializeAt ((serialize_value ta).1 ++ extra) (serialize_value ta).2 = some ta := by
  obtain ⟨s, k, nco⟩ := ta
  cases nco with
  | none =>
    have h : s.length + k.length < 4294967296 := by
      have hb := hbound
      simp only [payloadBytes, List.length_append] at hb
      simp only [Option.getD_none, List.length_nil] at hb
      omega
    have hd := deser_layout_none s k extra h
    simpa [serialize_value, payloadBytes, rootBytes] using hd
  | some ncb =>
    have h : s.length + k.length + ncb.length < 4294967296 := by
      have hb := hbound
      simp only [payloadBytes, List.length_append] at hb
      simp only [Option.getD_some] at hb
      omega
    have hd := deser_layout_some s k ncb extra h
    simpa [serialize_value, payloadBytes, rootBytes] using hd

theorem getD_append_right_len (l l2 : Bytes) (i d : Nat) :
    (l ++ l2).getD (l.length + i) d = l2.getD i d := by
  induction l with
  | nil => simp
  | cons x xs ih =>
    have hidx : (x :: xs).length + i = (xs.length + i) + 1 := by
      simp only [List.length_cons]
      omega
    rw [List.cons_append, hidx, List.getD_cons_succ, ih]

theorem pos_recover (buf : Bytes) (pos : Nat) :
    256 * (buf ++ enc16be pos).getD ((buf ++ enc16be pos).length - 2) 0 +
      (buf ++ enc16be pos).getD ((buf ++ enc16be pos).length - 1) 0 = pos := by
  have hlen : (buf ++ enc16be pos).length = buf.length + 2 := by
    simp [enc16be, List.length_append]
  have h2 : (buf ++ enc16be pos).length - 2 = buf.length + 0 := by omega
  have h1 : (buf ++ enc16be pos).length - 1 = buf.length + 1 := by omega
  rw [h2, h1, getD_append_right_len, getD_append_right_len]
  show 256 * (pos / 256) + pos % 256 = pos
  omega

theorem lookupKey_filter_self (key : Bytes) (es : List (Bytes × Bytes)) :
    lookupKey key (es.filter (fun e => !(decide (e.1 = key)))) = none := by
  induction es with
  | nil => rfl
  | cons e rest ih =>
    rw [List.filter_cons]
    by_cases h : e.1 = key
    · rw [if_neg (by simp [h])]
      exact ih
    · rw [if_pos (by simp [h])]
      simp only [lookupKey]
      rw [if_neg h]
      exact ih

theorem save_cert_big_eq (key : Bytes) (ta : OwnedTrustAnchor) (st : Pddb)
    (hk : reservedKey key = false) (hbig : 65536 ≤ (serialize_value ta).2) :
    save_cert key ta st = (SaveOutcome.panicSize, ⟨true, st.entries⟩) := by
  simp [save_cert, hk, hbig]

theorem save_cert_not_panic (k : Bytes) (ta : OwnedTrustAnchor) (st : Pddb)
    (hnb : ¬ 65536 ≤ (serialize_value ta).2) :
    (save_cert k ta st).1 ≠ SaveOutcome.panicSize := by
  unfold save_cert
  by_cases hr : reservedKey k
  · rw [if_pos hr]
    intro hh
    simp at hh
  · rw [if_neg hr, if_neg hnb]
    intro hh
    simp at hh

theorem saveLoop_total (pairs : List (Bytes × OwnedTrustAnchor)) :
    ∀ st : Pddb, (∀ p ∈ pairs, (serialize_value p.2).2 ≤ 65535) →
      ∃ st2 fails, saveLoop pairs st = some (st2, fails) := by
  induction pairs with
  | nil =>
    intro st _
    exact ⟨st, [], rfl⟩
  | cons p rest ih =>
    intro st h
    obtain ⟨k, ta⟩ := p
    have hta : (serialize_value ta).2 ≤ 65535 := h (k, ta) (List.mem_cons_self _ _)
    have hrest : ∀ q ∈ rest, (serialize_value q.2).2 ≤ 65535 :=
      fun q hq => h q (List.mem_cons_of_mem _ hq)
    have hnb : ¬ 65536 ≤ (serialize_value ta).2 := by omega
    rcases ho : save_cert k ta st with ⟨o, st'⟩
    cases o with
    | ok =>
      obtain ⟨st2, fails, hsl⟩ := ih st' hrest
      refine ⟨st2, fails, ?_⟩
      simp only [saveLoop]
      rw [ho]
      exact hsl
    | errReserved =>
      obtain ⟨st2, fails, hsl⟩ := ih st' hrest
      refine ⟨st2, notifMsg ta :: fails, ?_⟩
      simp only [saveLoop]
      rw [ho]
      simp [hsl]
    | panicSize =>
      exfalso
      have hne := save_cert_not_panic k ta st hnb
      rw [ho] at hne
      exact hne rfl

theorem presentedOf_check_trust (parse : Bytes → Option Cert) (ui : UiOracle)
    (batch : List Bytes) (st : Pddb) :
    presentedOf (check_trust parse ui batch st).1 = checklistOf parse batch ∨
      presentedOf (check_trust parse ui batch st).1 = [] := by
  unfold check_trust
  split
  · split
    · exact Or.inl rfl
    · split
      · split
        · exact Or.inl rfl
        · exact Or.inr rfl
      · exact Or.inr rfl
  · exact Or.inr rfl

/-! ## Claim theorems -/

/-- Claim C2: for every key starting with `__` and every record,
`save_cert` returns the reserved-key error and performs no side effect —
the store (dictionary-existence flag and namespace contents) is returned
unchanged, with no I/O done. -/
theorem save_cert_reserved_no_side_effect (key : Bytes) (ta : OwnedTrustAnchor) (st : Pddb)
    (h : reservedKey key = true) :
    save_cert key ta st = (SaveOutcome.errReserved, st) := by
  simp [save_cert, h]

/-- Witness for claim C2 at the key `__v` and a populated store. -/
theorem save_cert_reserved_no_side_effect_witness :
    reservedKey [95, 95, 118] = true ∧
      save_cert [95, 95, 118] ⟨[1], [2], none⟩ ⟨true, [([107], [9, 9])]⟩ =
        (SaveOutcome.errReserved, ⟨true, [([107], [9, 9])]⟩) :=
  ⟨by decide, save_cert_reserved_no_side_effect [95, 95, 118] ⟨[1], [2], none⟩ _ (by decide)⟩

/-- Claim C10: `pddb_key` indexes `spki` at offsets 6–9 without a length
guard, so any record with fewer than 10 spki bytes reaches the
out-of-bounds (panic) branch. -/
theorem pddb_key_short_spki_oob (r : OwnedTrustAnchor) (h : r.spki.length < 10) :
    r.pddb_key = Except.error KeyPanic.oob := by
  simp [OwnedTrustAnchor.pddb_key, h]

/-- Witness for claim C10 at a record with an empty spki. -/
theorem pddb_key_short_spki_oob_witness :
    ([] : Bytes).length < 10 ∧
      OwnedTrustAnchor.pddb_key ⟨[67, 78, 61, 65], [], none⟩ = Except.error KeyPanic.oob :=
  ⟨by decide, pddb_key_short_spki_oob ⟨[67, 78, 61, 65], [], none⟩ (by decide)⟩

/-- Claim C7: every key `pddb_key` returns has at most
`KEY_NAME_LEN - 1 = 127 - 8 - 8 - 8 - 4 - 4 - 1 = 94` bytes, however long
the subject is. -/
theorem pddb_key_length_bound (r : OwnedTrustAnchor) (key : Bytes)
    (h : r.pddb_key = Except.ok key) : key.length ≤ 94 := by
  unfold OwnedTrustAnchor.pddb_key at h
  by_cases h1 : r.spki.length < 10
  · rw [if_pos h1] at h
    exact Except.noConfusion h
  rw [if_neg h1] at h
  by_cases h2 : (keyLabel r.subject ++ hexSuffix r.spki).length ≤ 94
  · rw [if_pos h2] at h
    injection h with h
    subst h
    exact h2
  rw [if_neg h2] at h
  by_cases h3 : contByte ((keyLabel r.subject ++ hexSuffix r.spki).getD 94 0) = true
  · rw [if_pos h3] at h
    exact Except.noConfusion h
  · rw [if_neg h3] at h
    injection h with h
    subst h
    simp

/-- Witness for claim C7 at a subject `CN=A` and a 10-byte spki. -/
theorem pddb_key_length_bound_witness :
    OwnedTrustAnchor.pddb_key ⟨[67, 78, 61, 65], List.replicate 10 0, none⟩ =
        Except.ok [65, 32, 48, 48, 48, 48] ∧
      ([65, 32, 48, 48, 48, 48] : Bytes).length ≤ 94 :=
  ⟨by decide, pddb_key_length_bound ⟨[67, 78, 61, 65], List.replicate 10 0, none⟩ _ (by decide)⟩

/-- Counterexample to claim C6: the subject `[65, 255]` is not valid UTF-8,
yet the code derives the key from the empty label (`" 0000"`), not from
the raw subject byte sequence; the spec-described variant
`pddb_keyRawFallback` disagrees with the code here. -/
theorem pddb_key_invalid_utf8_counterexample :
    utf8Valid [65, 255] = false ∧
      OwnedTrustAnchor.pddb_key ⟨[65, 255], List.replicate 10 0, none⟩ =
        Except.ok [32, 48, 48, 48, 48] ∧
      pddb_keyRawFallback ⟨[65, 255], List.replicate 10 0, none⟩ =
        Except.ok [65, 255, 32, 48, 48, 48, 48] ∧
      OwnedTrustAnchor.pddb_key ⟨[65, 255], List.replicate 10 0, none⟩ ≠
        pddb_keyRawFallback ⟨[65, 255], List.replicate 10 0, none⟩ := by decide

/-- Claim C6 amended: when the subject bytes are not valid UTF-8,
`pddb_key` falls back to the EMPTY string as the label (logging a
warning), so the derived key is exactly the space-and-hex suffix. -/
theorem pddb_key_invalid_utf8_empty_label (r : OwnedTrustAnchor)
    (hu : utf8Valid r.subject = false) (hs : 10 ≤ r.spki.length) :
    r.pddb_key = Except.ok (hexSuffix r.spki) := by
  have hl : keyLabel r.subject = [] := by
    simp only [keyLabel, hu, Bool.false_eq_true, if_false]
    rfl
  have hfit : (keyLabel r.subject ++ hexSuffix r.spki).length ≤ 94 := by
    have := hexSuffix_length_le r.spki
    simp only [hl, List.nil_append]
    omega
  unfold OwnedTrustAnchor.pddb_key
  rw [if_neg (by omega), if_pos hfit, hl, List.nil_append]

/-- Witness for the amended claim C6 at the invalid-UTF-8 subject
`[65, 255]`. -/
theorem pddb_key_invalid_utf8_empty_label_witness :
    utf8Valid [65, 255] = false ∧ 10 ≤ (List.replicate 10 0 : Bytes).length ∧
      OwnedTrustAnchor.pddb_key ⟨[65, 255], List.replicate 10 0, none⟩ =
        Except.ok (hexSuffix (List.replicate 10 0)) :=
  ⟨by decide, by decide,
    pddb_key_invalid_utf8_empty_label ⟨[65, 255], List.replicate 10 0, none⟩
      (by decide) (by decide)⟩

set_option maxRecDepth 8000 in
/-- Counterexample to claim C5: two pairs of records with the same label
and different spki bytes that derive the SAME key — first because the
unpadded `{:X}` rendering is ambiguous (`1,23` and `12,3` both print
`123`), second because a 94-byte label truncates the suffix away
entirely. -/
theorem pddb_key_collision_counterexample :
    (OwnedTrustAnchor.pddb_key ⟨[67, 78, 61, 65], [0, 0, 0, 0, 0, 0, 1, 35, 1, 1], none⟩ =
        OwnedTrustAnchor.pddb_key ⟨[67, 78, 61, 65], [0, 0, 0, 0, 0, 0, 18, 3, 1, 1], none⟩ ∧
      ([0, 0, 0, 0, 0, 0, 1, 35, 1, 1] : Bytes) ≠ [0, 0, 0, 0, 0, 0, 18, 3, 1, 1]) ∧
    (OwnedTrustAnchor.pddb_key
        ⟨[67, 78, 61] ++ List.replicate 94 65, List.replicate 10 1, none⟩ =
        OwnedTrustAnchor.pddb_key
          ⟨[67, 78, 61] ++ List.replicate 94 65, List.replicate 10 2, none⟩ ∧
      hexSuffix (List.replicate 10 1) ≠ hexSuffix (List.replicate 10 2)) := by decide

/-- Claim C5 amended: two records deriving the SAME label (from possibly
different subject bytes) whose spki bytes at offsets 6–9 render to
DIFFERENT unpadded uppercase-hex suffixes, and whose label-plus-suffix
fits inside the 94-byte budget, derive different keys, the difference
lying in the appended suffix. -/
theorem pddb_key_suffix_disambiguation (r1 r2 : OwnedTrustAnchor)
    (hlab : keyLabel r1.subject = keyLabel r2.subject)
    (h1 : 10 ≤ r1.spki.length) (h2 : 10 ≤ r2.spki.length)
    (hhex : hexSuffix r1.spki ≠ hexSuffix r2.spki)
    (hfit1 : (keyLabel r1.subject ++ hexSuffix r1.spki).length ≤ 94)
    (hfit2 : (keyLabel r2.subject ++ hexSuffix r2.spki).length ≤ 94) :
    r1.pddb_key = Except.ok (keyLabel r1.subject ++ hexSuffix r1.spki) ∧
      r2.pddb_key = Except.ok (keyLabel r2.subject ++ hexSuffix r2.spki) ∧
      r1.pddb_key ≠ r2.pddb_key := by
  have e1 : r1.pddb_key = Except.ok (keyLabel r1.subject ++ hexSuffix r1.spki) := by
    unfold OwnedTrustAnchor.pddb_key
    rw [if_neg (by omega), if_pos hfit1]
  have e2 : r2.pddb_key = Except.ok (keyLabel r2.subject ++ hexSuffix r2.spki) := by
    unfold OwnedTrustAnchor.pddb_key
    rw [if_neg (by omega), if_pos hfit2]
  refine ⟨e1, e2, ?_⟩
  rw [e1, e2, hlab]
  intro h
  injection h with h
  exact hhex (List.append_cancel_left h)

/-- Witness for the amended claim C5: the subjects `CN=A` and `CN=A,O=B`
differ but derive the same label `A`; the spki bytes differ at offset 9,
and the keys differ. -/
theorem pddb_key_suffix_disambiguation_witness :
    keyLabel [67, 78, 61, 65] = keyLabel [67, 78, 61, 65, 44, 79, 61, 66] ∧
      ([67, 78, 61, 65] : Bytes) ≠ [67, 78, 61, 65, 44, 79, 61, 66] ∧
      hexSuffix (List.replicate 10 0) ≠ hexSuffix [0, 0, 0, 0, 0, 0, 0, 0, 0, 1] ∧
      OwnedTrustAnchor.pddb_key ⟨[67, 78, 61, 65], List.replicate 10 0, none⟩ ≠
        OwnedTrustAnchor.pddb_key
          ⟨[67, 78, 61, 65, 44, 79, 61, 66], [0, 0, 0, 0, 0, 0, 0, 0, 0, 1], none⟩ :=
  ⟨by decide, by decide, by decide,
    (pddb_key_suffix_disambiguation ⟨[67, 78, 61, 65], List.replicate 10 0, none⟩
      ⟨[67, 78, 61, 65, 44, 79, 61, 66], [0, 0, 0, 0, 0, 0, 0, 0, 0, 1], none⟩ (by decide)
      (by decide) (by decide) (by decide) (by decide) (by decide)).2.2⟩

/-- Claim C1: for every record whose serialized archive is at most 65535
bytes and every non-reserved key, `save_cert` succeeds and a subsequent
`get_cert` under the same key returns the record unchanged (same subject,
spki and name constraints). -/
theorem save_then_get_roundtrip (key : Bytes) (ta : OwnedTrustAnchor) (st : Pddb)
    (hk : reservedKey key = false)
    (hsize : (serialize_value ta).1.length ≤ 65535) :
    (save_cert key ta st).1 = SaveOutcome.ok ∧
      (get_cert key (save_cert key ta st).2).1 = GetOutcome.ok (some ta) := by
  have hple : (serialize_value ta).2 ≤ (serialize_value ta).1.length := by
    simp only [serialize_value, List.length_append]
    omega
  have hnb : ¬ (65536 ≤ (serialize_value ta).2) := by omega
  have hsave : save_cert key ta st =
      (SaveOutcome.ok,
        ⟨true, insertEntry key ((serialize_value ta).1 ++ enc16be (serialize_value ta).2)
          st.entries⟩) := by
    simp [save_cert, hk, hnb]
  rw [hsave]
  refine ⟨rfl, ?_⟩
  have hlook : lookupKey key
      (insertEntry key ((serialize_value ta).1 ++ enc16be (serialize_value ta).2) st.entries)
      = some ((serialize_value ta).1 ++ enc16be (serialize_value ta).2) := by
    simp [insertEntry, lookupKey]
  have hlen2 : ¬ (((serialize_value ta).1 ++ enc16be (serialize_value ta).2).length < 2) := by
    simp only [enc16be, List.length_append, List.length_cons, List.length_nil]
    omega
  have hrec := pos_recover (serialize_value ta).1 (serialize_value ta).2
  have hbound : (payloadBytes ta).length < 4294967296 := by
    have hp2 : (serialize_value ta).2 = (payloadBytes ta).length := rfl
    omega
  have hdes := deserializeAt_serialize ta (enc16be (serialize_value ta).2) hbound
  simp only [get_cert, hlook]
  rw [if_neg hlen2, hrec, hdes]

/-- Witness for claim C1: a concrete record with name constraints saved
and re-read under the key `k`. -/
theorem save_then_get_roundtrip_witness :
    reservedKey [107] = false ∧
      (serialize_value ⟨[1, 2], [3], some [4]⟩).1.length ≤ 65535 ∧
      ((save_cert [107] ⟨[1, 2], [3], some [4]⟩ ⟨false, []⟩).1 = SaveOutcome.ok ∧
        (get_cert [107] (save_cert [107] ⟨[1, 2], [3], some [4]⟩ ⟨false, []⟩).2).1 =
          GetOutcome.ok (some ⟨[1, 2], [3], some [4]⟩)) :=
  ⟨by decide, by decide,
    save_then_get_roundtrip [107] ⟨[1, 2], [3], some [4]⟩ ⟨false, []⟩ (by decide) (by decide)⟩

/-- Counterexample to claim C3: an entry whose stored contents are empty
(a truncated record of fewer than two bytes) makes `get_cert` reach the
`bytes[len - 2]` index-underflow panic rather than return the successful
absent result. -/
theorem get_cert_short_contents_counterexample :
    (get_cert [107] ⟨true, [([107], [])]⟩).1 = GetOutcome.panicIdx ∧
      (get_cert [107] ⟨true, [([107], [])]⟩).1 ≠ GetOutcome.ok none := by decide

/-- Claim C3 amended: a stored entry of AT LEAST two bytes whose decode
fails yields the same successful `Ok(None)` that a missing entry yields
(the failure is only logged); contents shorter than two bytes instead
panic on the `bytes[len - 2]` index. -/
theorem get_cert_decode_failure_absent (key : Bytes) (st : Pddb) (bs : Bytes)
    (hfind : lookupKey key st.entries = some bs)
    (hlen : 2 ≤ bs.length)
    (hdec : deserializeAt bs
      (256 * bs.getD (bs.length - 2) 0 + bs.getD (bs.length - 1) 0) = none) :
    (get_cert key st).1 = GetOutcome.ok none ∧
      (get_cert key
        ⟨st.dictExists, st.entries.filter (fun e => !(decide (e.1 = key)))⟩).1 =
        GetOutcome.ok none := by
  constructor
  · have hnl : ¬ (bs.length < 2) := by omega
    simp only [get_cert, hfind]
    rw [if_neg hnl, hdec]
  · simp [get_cert, lookupKey_filter_self]

/-- Witness for the amended claim C3: the two-byte contents `[0, 0]` fail
to decode and read back as absent, exactly like a missing key. -/
theorem get_cert_decode_failure_absent_witness :
    lookupKey [107] ([([107], [0, 0])] : List (Bytes × Bytes)) = some [0, 0] ∧
      2 ≤ ([0, 0] : Bytes).length ∧
      deserializeAt [0, 0]
        (256 * ([0, 0] : Bytes).getD 0 0 + ([0, 0] : Bytes).getD 1 0) = none ∧
      ((get_cert [107] ⟨true, [([107], [0, 0])]⟩).1 = GetOutcome.ok none ∧
        (get_cert [107]
          ⟨true, ([([107], [0, 0])] : List (Bytes × Bytes)).filter
            (fun e => !(decide (e.1 = [107])))⟩).1 = GetOutcome.ok none) :=
  ⟨by decide, by decide, by decide,
    get_cert_decode_failure_absent [107] ⟨true, [([107], [0, 0])]⟩ [0, 0]
      (by decide) (by decide) (by decide)⟩

/-- Counterexample to claim C4: a record whose archive exceeds 65535
bytes makes `save_cert` reach the `expect("data > u16")` PANIC (a process
abort), not a returned error result. -/
theorem save_cert_oversize_counterexample :
    (save_cert [107] ⟨List.replicate 70000 0, [], none⟩ ⟨true, []⟩).1 = SaveOutcome.panicSize ∧
      SaveOutcome.panicSize ≠ SaveOutcome.errReserved ∧
      SaveOutcome.panicSize ≠ SaveOutcome.ok := by
  refine ⟨?_, by decide, by decide⟩
  have hbig : 65536 ≤ (serialize_value ⟨List.replicate 70000 0, [], none⟩).2 := by
    simp only [serialize_value, payloadBytes, Option.getD_none, List.append_nil,
      List.length_append, List.length_replicate, List.length_nil]
    omega
  rw [save_cert_big_eq [107] ⟨List.replicate 70000 0, [], none⟩ ⟨true, []⟩ (by decide) hbig]

/-- Claim C4 amended: an archive whose root position exceeds 65535 is a
hard failure with no silent truncation — nothing is written — but the
failure is the `expect("data > u16")` panic (a process abort), not an
explicit error result returned to the caller. -/
theorem save_cert_oversize_panics (key : Bytes) (ta : OwnedTrustAnchor) (st : Pddb)
    (hk : reservedKey key = false) (hbig : 65536 ≤ (serialize_value ta).2) :
    (save_cert key ta st).1 = SaveOutcome.panicSize ∧
      (save_cert key ta st).2.entries = st.entries := by
  rw [save_cert_big_eq key ta st hk hbig]
  exact ⟨rfl, rfl⟩

/-- Witness for the amended claim C4 at a 70000-byte subject. -/
theorem save_cert_oversize_panics_witness :
    reservedKey [107] = false ∧
      65536 ≤ (serialize_value ⟨List.replicate 70000 0, [], none⟩).2 ∧
      ((save_cert [107] ⟨List.replicate 70000 0, [], none⟩ ⟨false, [([1], [2])]⟩).1 =
          SaveOutcome.panicSize ∧
        (save_cert [107] ⟨List.replicate 70000 0, [], none⟩ ⟨false, [([1], [2])]⟩).2.entries =
          [([1], [2])]) :=
  ⟨by decide,
    by
      simp only [serialize_value, payloadBytes, Option.getD_none, List.append_nil,
        List.length_append, List.length_replicate, List.length_nil]
      omega,
    save_cert_oversize_panics [107] ⟨List.replicate 70000 0, [], none⟩ ⟨false, [([1], [2])]⟩
      (by decide)
      (by
        simp only [serialize_value, payloadBytes, Option.getD_none, List.append_nil,
          List.length_append, List.length_replicate, List.length_nil]
        omega)⟩

/-- Claim C8: every line of the checklist `check_trust` presents to the
user renders a candidate that both parsed successfully and has the CA
flag set; unparsable entries and non-CA leaf certificates are never
offered. -/
theorem check_trust_offers_only_cas (parse : Bytes → Option Cert) (ui : UiOracle)
    (batch : List Bytes) (st : Pddb) (line : Bytes)
    (h : line ∈ presentedOf (check_trust parse ui batch st).1) :
    ∃ der ∈ batch, ∃ c : Cert, parse der = some c ∧ c.is_ca = true ∧ line = render c := by
  rcases presentedOf_check_trust parse ui batch st with he | he
  · rw [he] at h
    simp only [checklistOf, List.mem_map] at h
    obtain ⟨c, hc, rfl⟩ := h
    simp only [caCerts, List.mem_filter] at hc
    obtain ⟨hcm, hca⟩ := hc
    simp only [List.mem_filterMap] at hcm
    obtain ⟨der, hder, hparse⟩ := hcm
    exact ⟨der, hder, c, hparse, hca, rfl⟩
  · rw [he] at h
    exact absurd h (List.not_mem_nil _)

/-- Witness for claim C8: a batch with one CA, one leaf and one
unparsable entry offers exactly the rendering of the CA, which traces back to
a parsed CA candidate. -/
theorem check_trust_offers_only_cas_witness :
    (render demoCa ∈
        presentedOf (check_trust demoParse ⟨none, []⟩ [[0], [1], [2]] ⟨true, []⟩).1) ∧
      (∃ der ∈ [[0], [1], [2]], ∃ c : Cert,
        demoParse der = some c ∧ c.is_ca = true ∧ render demoCa = render c) :=
  ⟨by decide, check_trust_offers_only_cas demoParse ⟨none, []⟩ [[0], [1], [2]] ⟨true, []⟩
    (render demoCa) (by decide)⟩

/-- Claim C9: when the checkbox interaction succeeds, `check_trust`
returns the number of labels the user selected, for EVERY save outcome —
a per-anchor persistence failure is notified but still counted. -/
theorem check_trust_counts_selected (parse : Bytes → Option Cert) (batch : List Bytes)
    (st : Pddb) (trusted : List Bytes) (idx : List Nat)
    (hser : (caCerts parse batch).all (fun c => 24 ≤ c.serial.length) = true)
    (hidx : (idx.all (fun i => i < (caCerts parse batch).length)) = true)
    (hsize : ∀ p ∈ selectedPairs parse batch idx, (serialize_value p.2).2 ≤ 65535) :
    countOf (check_trust parse ⟨some trusted, idx⟩ batch st).1 = some trusted.length := by
  obtain ⟨st2, fails, hsl⟩ := saveLoop_total (selectedPairs parse batch idx) st hsize
  unfold check_trust
  rw [if_pos hser]
  show countOf
    ((if (idx.all fun i => i < (caCerts parse batch).length) = true then
        match saveLoop (selectedPairs parse batch idx) st with
        | some (st', fails) =>
          (TrustOutcome.done (checklistOf parse batch) fails trusted.length, st')
        | none => (TrustOutcome.panic, st)
      else (TrustOutcome.panic, st))).1 = some trusted.length
  rw [if_pos hidx, hsl]
  rfl

/-- Witness for claim C9: the user selects two labels; the save of the
first anchor fails with the reserved-key error (its serial starts with `__`) and
is notified, yet the returned count is 2, the number selected. -/
theorem check_trust_counts_selected_witness :
    (caCerts demoParse2 [[0], [1]]).all (fun c => 24 ≤ c.serial.length) = true ∧
      (([0, 1] : List Nat).all (fun i => i < (caCerts demoParse2 [[0], [1]]).length)) = true ∧
      (∀ p ∈ selectedPairs demoParse2 [[0], [1]] [0, 1], (serialize_value p.2).2 ≤ 65535) ∧
      (check_trust demoParse2 ⟨some [[116], [117]], [0, 1]⟩ [[0], [1]] ⟨true, []⟩).1 =
        TrustOutcome.done (checklistOf demoParse2 [[0], [1]])
          [notifMsg (otaOfCert demoCaReserved)] 2 ∧
      countOf (check_trust demoParse2 ⟨some [[116], [117]], [0, 1]⟩ [[0], [1]] ⟨true, []⟩).1 =
        some 2 :=
  ⟨by decide, by decide, by decide, by decide,
    check_trust_counts_selected demoParse2 [[0], [1]] ⟨true, []⟩ [[116], [117]] [0, 1]
      (by decide) (by decide) (by decide)⟩
